import Mathlib

/-!
Verification development for the portless local reverse proxy.

This file gives a shallow embedding, in Lean 4, of the pure decision logic of
the portless code base:

* the proxy request / WebSocket-upgrade handlers (`src/proxy.ts`:
  `getRequestHost`, `buildForwardedHeaders`, `handleRequest`, `handleUpgrade`,
  `HOP_BY_HOP_HEADERS`, `createProxyServer`),
* the on-disk route store (`src/routes.ts`: `isValidRoute`, `loadRoutes`,
  `addRoute`, `removeRoute`),
* the hostname validator (`src/utils.ts`: `parseHostname`), and
* the certificate validity / regeneration logic (`certs.ts`: `isCertValid`,
  `ensureCerts`).

I/O is abstracted in the standard way for a shallow embedding: the content of
the routes file becomes an explicit JSON value, process liveness becomes a
predicate on pids, an X.509 certificate file becomes a record of the
observations the code makes of it, and HTTP requests / responses become
records of header lists and strings.  Header names are modelled lowercased
(Node.js lowercases incoming header names, and outgoing comparisons are
case-insensitive).
-/

namespace Portless

/-! ## JavaScript string and number helpers -/

/-- Characters treated as whitespace by JavaScript `parseInt` for our purposes
(leading whitespace is skipped before parsing). -/
def jsIsSpace (c : Char) : Bool :=
  c = ' ' || c = '\t' || c = '\n' || c = '\r'

/-- Fold a list of decimal digit characters into a natural number. -/
def digitsToNat (cs : List Char) : Nat :=
  cs.foldl (fun acc c => 10 * acc + (c.toNat - '0'.toNat)) 0

/-- JavaScript `parseInt(s, 10)`: skip leading whitespace, read an optional
sign and then a maximal run of decimal digits, ignoring any trailing garbage.
Returns `none` exactly when the result would be `NaN` (no digits). -/
def parseIntJS (s : String) : Option Int :=
  let cs := s.toList.dropWhile jsIsSpace
  let signed : Bool × List Char :=
    match cs with
    | '-' :: rest => (true, rest)
    | '+' :: rest => (false, rest)
    | _ => (false, cs)
  let digits := signed.2.takeWhile (fun c => c.isDigit)
  if digits.isEmpty then none
  else
    let n : Int := Int.ofNat (digitsToNat digits)
    some (if signed.1 then -n else n)

/-- JavaScript `a || b` on an optional string, where the empty string is falsy
(mirrors `req.headers[h] as string || defaultValue`). -/
def jsOrS (a : Option String) (b : String) : String :=
  match a with
  | some s => if s = "" then b else s
  | none => b

/-- `s.split(":")[0]`: the part of the string before the first colon. -/
def beforeColon (s : String) : String :=
  String.mk (s.toList.takeWhile (fun c => c ≠ ':'))

/-- `s.split(":")[1]` as an option: the second colon-separated chunk,
`none` when the string has no colon (JavaScript would yield `undefined`). -/
def secondColonChunk (s : String) : Option String :=
  (s.splitOn ":")[1]?

/-! ## Header lists

Node.js represents request headers as an object keyed by lowercased header
name.  We model such an object as an association list with unique-by-use
semantics: reading takes the first binding, writing replaces every binding of
the name (there is at most one in all states the embedded code constructs). -/

/-- A header object: association list from (lowercased) name to value. -/
abbrev Headers : Type := List (String × String)

/-- Read a header (`obj[k]`): value of the first binding of the name. -/
def headerGet (hs : Headers) (k : String) : Option String :=
  (hs.find? (fun e => e.1 = k)).map (fun e => e.2)

/-- Write a header (`obj[k] = v`): replace the binding when present, append it
otherwise. -/
def headerSet (hs : Headers) (k v : String) : Headers :=
  if (List.find? (fun e => e.1 = k) hs).isSome then
    hs.map (fun e => if e.1 = k then (k, v) else e)
  else hs ++ [(k, v)]

/-- Write a list of headers in order (`for (const [k, v] of entries) obj[k] = v`). -/
def headerSetAll (hs : Headers) (upd : Headers) : Headers :=
  upd.foldl (fun acc e => headerSet acc e.1 e.2) hs

/-- `res.writeHead(status, explicit)` after earlier `res.setHeader` calls:
Node merges the two header sets and the headers passed to `writeHead` take
precedence over those set with `setHeader`. -/
def writeHeadMerge (base explicit : Headers) : Headers :=
  explicit ++ base.filter (fun e => (List.find? (fun x => x.1 = e.1) explicit).isNone)

/-! ## Proxy engine (`src/proxy.ts`) -/

/-- A route as seen by the proxy (`RouteInfo`): hostname and backend port. -/
structure RouteInfo where
  hostname : String
  port : Int
  deriving Repr, DecidableEq

/-- An incoming HTTP request as observed by the proxy handlers: the header
object (lowercased names, including HTTP/2 pseudo-headers such as
`:authority`), the socket's remote address, the URL and the method. -/
structure Request where
  headers : Headers
  remoteAddress : Option String
  url : String
  method : String

/-- A response the proxy writes: status, final header set, body. -/
structure Response where
  status : Int
  headers : Headers
  body : String
  deriving Repr, DecidableEq

/-- `getRequestHost`: the HTTP/2 `:authority` pseudo-header when present and
non-empty, else the `Host` header, else the empty string. -/
def getRequestHost (req : Request) : String :=
  match headerGet req.headers ":authority" with
  | some a => if a = "" then jsOrS (headerGet req.headers "host") "" else a
  | none => jsOrS (headerGet req.headers "host") ""

/-- `buildForwardedHeaders(req, tls)`: the X-Forwarded-* header entries
injected into every proxied request. -/
def buildForwardedHeaders (req : Request) (tls : Bool) : Headers :=
  let remoteAddress := jsOrS req.remoteAddress "127.0.0.1"
  let proto := if tls then "https" else "http"
  let defaultPort := if tls then "443" else "80"
  let hostHeader := getRequestHost req
  [("x-forwarded-for",
      match headerGet req.headers "x-forwarded-for" with
      | some v => if v = "" then remoteAddress else v ++ ", " ++ remoteAddress
      | none => remoteAddress),
   ("x-forwarded-proto", jsOrS (headerGet req.headers "x-forwarded-proto") proto),
   ("x-forwarded-host", jsOrS (headerGet req.headers "x-forwarded-host") hostHeader),
   ("x-forwarded-port",
      jsOrS (headerGet req.headers "x-forwarded-port")
        (jsOrS (secondColonChunk hostHeader) defaultPort))]

/-- Request header tracking proxy traversals (`PORTLESS_HOPS_HEADER`). -/
def PORTLESS_HOPS_HEADER : String := "x-portless-hops"

/-- Maximum traversals before a request is rejected as a loop (`MAX_PROXY_HOPS`). -/
def MAX_PROXY_HOPS : Int := 5

/-- Response header identifying the proxy (`PORTLESS_HEADER`), lowercased. -/
def PORTLESS_HEADER : String := "x-portless"

/-- `parseInt(req.headers["x-portless-hops"] as string, 10) || 0`:
the hop count of a request; an absent or unparsable header counts as 0. -/
def hopsOf (req : Request) : Int :=
  match headerGet req.headers PORTLESS_HOPS_HEADER with
  | none => 0
  | some s =>
    match parseIntJS s with
    | none => 0
    | some n => n

/-- Hop-by-hop HTTP/1.1 response headers forbidden in HTTP/2
(`HOP_BY_HOP_HEADERS`). -/
def HOP_BY_HOP_HEADERS : List String :=
  ["connection", "keep-alive", "proxy-connection", "transfer-encoding", "upgrade"]

/-- `escapeHtml` from `src/utils.ts`. -/
def escapeHtml (s : String) : String :=
  ((((s.replace "&" "&amp;").replace "<" "&lt;").replace ">" "&gt;").replace
    "\"" "&quot;").replace "'" "&#39;"

/-- `formatUrl` from `src/utils.ts`: omits the port when it matches the
protocol default (80 for HTTP, 443 for HTTPS). -/
def formatUrl (hostname : String) (proxyPort : Int) (tls : Bool) : String :=
  let proto := if tls then "https" else "http"
  let defaultPort : Int := if tls then 443 else 80
  if proxyPort = defaultPort then proto ++ "://" ++ hostname
  else proto ++ "://" ++ hostname ++ ":" ++ toString proxyPort

/-- The part of the 508 Loop Detected body after the hop count (literal
braces written with character escapes). -/
def loopBodyTail : String :=
  " times.\n\nThis usually means a dev server (Vite, webpack, etc.) is proxying\nrequests back through portless without rewriting the Host header.\n\nFix: add changeOrigin: true to your proxy config, e.g.:\n\n  proxy: \x7b\n    \"/api\": \x7b\n      target: \"http://<backend>.localhost:<port>\",\n      changeOrigin: true,\n    \x7d,\n  \x7d\n"

/-- Body of the HTTP 508 Loop Detected response (template literal in
`handleRequest`). -/
def loopBody (hops : Int) : String :=
  "Loop Detected: this request has passed through portless " ++ toString hops ++
    loopBodyTail

/-- The list item rendered for one active route on the 404 page. -/
def notFoundRouteItem (proxyPort : Int) (isTls : Bool) (r : RouteInfo) : String :=
  "<li><a href=\"" ++ escapeHtml (formatUrl r.hostname proxyPort isTls) ++ "\">" ++
    escapeHtml r.hostname ++ "</a> - localhost:" ++ escapeHtml (toString r.port) ++ "</li>"

/-- Body of the 404 Not Found HTML page synthesized by `handleRequest`
(whitespace of the template is not reproduced byte-for-byte; the dynamic
content and HTML-escaping are). -/
def notFoundBody (host : String) (routes : List RouteInfo) (proxyPort : Int)
    (isTls : Bool) : String :=
  let safeHost := escapeHtml host
  "<html><head><title>portless - Not Found</title></head><body><h1>Not Found</h1>" ++
    "<p>No app registered for <strong>" ++ safeHost ++ "</strong></p>" ++
    (if routes.length > 0 then
      "<h2>Active apps:</h2><ul>" ++
        String.join (routes.map (notFoundRouteItem proxyPort isTls)) ++ "</ul>"
    else "<p><em>No apps running.</em></p>") ++
    "<p>Start an app with: <code>portless " ++ (safeHost.replace ".localhost" "") ++
    " your-command</code></p></body></html>"

/-- The base headers present on the server response object before any
`writeHead`: `handleRequest` starts with `res.setHeader("X-Portless", "1")`. -/
def portlessBase : Headers := [(PORTLESS_HEADER, "1")]

/-- 508 response produced by the HTTP loop-detection branch. -/
def loopResponse (hops : Int) : Response :=
  { status := 508
    headers := writeHeadMerge portlessBase [("content-type", "text/plain")]
    body := loopBody hops }

/-- 400 response for a missing Host header. -/
def missingHostResponse : Response :=
  { status := 400
    headers := writeHeadMerge portlessBase [("content-type", "text/plain")]
    body := "Missing Host header" }

/-- 404 response for an unknown host. -/
def notFoundResponse (host : String) (routes : List RouteInfo) (proxyPort : Int)
    (isTls : Bool) : Response :=
  { status := 404
    headers := writeHeadMerge portlessBase [("content-type", "text/html")]
    body := notFoundBody host routes proxyPort isTls }

/-- `key.startsWith(":")`: the name is an HTTP/2 pseudo-header. -/
def startsWithColon (s : String) : Bool :=
  match s.toList with
  | [] => false
  | c :: _ => c = ':'

/-- The headers of the outgoing proxied request: spread of `req.headers`,
overwritten by the X-Forwarded-* entries, then `x-portless-hops` set to
`hops + 1`, then every HTTP/2 pseudo-header (name starting with `:`) deleted. -/
def buildProxyReqHeaders (req : Request) (isTls : Bool) (hops : Int) : Headers :=
  let h1 := headerSetAll req.headers (buildForwardedHeaders req isTls)
  let h2 := headerSet h1 PORTLESS_HOPS_HEADER (toString (hops + 1))
  h2.filter (fun e => ¬ startsWithColon e.1)

/-- Outcome of `handleRequest` up to the point where I/O starts: either the
proxy writes a response of its own, or it opens a request to
`127.0.0.1:port` with the given headers (same url and method). -/
inductive HandleResult where
  | respond (resp : Response)
  | forward (port : Int) (headers : Headers)
  deriving DecidableEq

/-- `handleRequest` (decision part): set the identity header, resolve the
effective host, reject a missing host with 400, reject `hops ≥ 5` with 508,
reject an unknown host with 404, otherwise forward to the matched route. -/
def handleRequest (isTls : Bool) (proxyPort : Int) (routes : List RouteInfo)
    (req : Request) : HandleResult :=
  let host := beforeColon (getRequestHost req)
  if host = "" then .respond missingHostResponse
  else
    let hops := hopsOf req
    if MAX_PROXY_HOPS ≤ hops then .respond (loopResponse hops)
    else
      match routes.find? (fun r => r.hostname = host) with
      | none => .respond (notFoundResponse host routes proxyPort isTls)
      | some route => .forward route.port (buildProxyReqHeaders req isTls hops)

/-- A backend response as observed by the proxy (`proxyRes`): status code and
the (lowercased) response headers, plus the streamed body. -/
structure BackendResponse where
  status : Int
  headers : Headers
  body : String

/-- The relay of a backend response to the client (the `proxyRes` callback in
`handleRequest`): copy the headers, delete the hop-by-hop headers when the
server was created with TLS, and `writeHead` them — which merges with the
`X-Portless: 1` header set on the response object at the top of
`handleRequest`, the `writeHead` headers taking precedence. -/
def relayResponse (isTls : Bool) (b : BackendResponse) : Response :=
  let hdrs :=
    if isTls then b.headers.filter (fun e => ¬ HOP_BY_HOP_HEADERS.contains e.1)
    else b.headers
  { status := if b.status = 0 then 502 else b.status
    headers := writeHeadMerge portlessBase hdrs
    body := b.body }

/-- Raw bytes written on the socket by the WebSocket-upgrade loop-detection
branch of `handleUpgrade`. -/
def ws508Raw : String :=
  "HTTP/1.1 508 Loop Detected\r\n" ++
    "Content-Type: text/plain\r\n" ++
    "\r\n" ++
    "Loop Detected: request has passed through portless too many times.\n" ++
    "Add changeOrigin: true to your dev server proxy config.\n"

/-- Outcome of `handleUpgrade` up to the point where I/O starts. -/
inductive UpgradeResult where
  | socketEnd (data : String)
  | destroy
  | forward (port : Int) (headers : Headers)
  deriving DecidableEq

/-- `handleUpgrade` (decision part): reject `hops ≥ 5` by writing a raw
HTTP/1.1 508 response on the socket, destroy the socket when no route matches
the host, otherwise open an upgrade request to the route's backend. -/
def handleUpgrade (isTls : Bool) (routes : List RouteInfo) (req : Request) :
    UpgradeResult :=
  let hops := hopsOf req
  if MAX_PROXY_HOPS ≤ hops then .socketEnd ws508Raw
  else
    let host := beforeColon (getRequestHost req)
    match routes.find? (fun r => r.hostname = host) with
    | none => .destroy
    | some route => .forward route.port (buildProxyReqHeaders req isTls hops)

/-- How a client connection reached the proxy port. -/
inductive ConnKind where
  | tlsConn
  | plainConn
  deriving DecidableEq

/-- The byte-peek dispatch of `createProxyServer`'s TLS wrapper: the first
byte `0x16` (a TLS ClientHello) goes to the HTTP/2 secure server, anything
else to the sibling plain HTTP/1.1 server. -/
def connKindOf (firstByte : Nat) : ConnKind :=
  if firstByte = 0x16 then .tlsConn else .plainConn

/-- The request handler a connection of the given kind reaches in
`createProxyServer`: when the server is created with `tls`, BOTH inner
servers (the HTTP/2 secure server and the plain HTTP/1.1 server fed by the
byte-peek wrapper) invoke the same `handleRequest` closure, whose `isTls`
captured `!!tls` at server creation; the connection kind never reaches the
handler. -/
def serverHandleRequest (serverTls : Bool) (_conn : ConnKind) (proxyPort : Int)
    (routes : List RouteInfo) (req : Request) : HandleResult :=
  handleRequest serverTls proxyPort routes req

/-- The response relay a connection of the given kind gets in
`createProxyServer`: hop-by-hop stripping is decided by the server-level
`isTls` flag, not by the connection kind. -/
def serverRelayResponse (serverTls : Bool) (_conn : ConnKind)
    (b : BackendResponse) : Response :=
  relayResponse serverTls b

/-- The X-Forwarded-* headers built for a request that arrived on a
connection of the given kind: both inner servers of `createProxyServer`
call `buildForwardedHeaders(req, isTls)` with the `isTls` captured at
server creation, so the connection kind never influences them. -/
def serverForwardedHeaders (serverTls : Bool) (_conn : ConnKind)
    (req : Request) : Headers :=
  buildForwardedHeaders req serverTls

/-- Substring test used to state body properties (`body.includes(pat)`). -/
def strContains (s pat : String) : Bool :=
  s.toList.tails.any (fun t => pat.toList.isPrefixOf t)

/-! ## Route store (`src/routes.ts`)

The routes file holds JSON.  We model a parsed JSON value explicitly; the
file itself is `missing`, `invalidJson` (text `JSON.parse` rejects), or a
parsed value.  Process liveness (`process.kill(pid, 0)`) becomes a predicate
on pids.  The lock-directory protocol serializes `addRoute`/`removeRoute`;
the embedding models one such critical section as a function of the file
state. -/

/-- A JSON value (numbers restricted to integers, which is all the route
schema stores). -/
inductive JVal where
  | jnull
  | jbool (b : Bool)
  | jnum (n : Int)
  | jstr (s : String)
  | jarr (xs : List JVal)
  | jobj (fields : List (String × JVal))
  deriving Repr

/-- Property read `obj[k]` on a parsed JSON object: with duplicate keys,
`JSON.parse` keeps the last occurrence. -/
def jLookup (fields : List (String × JVal)) (k : String) : Option JVal :=
  (fields.reverse.find? (fun e => e.1 = k)).map (fun e => e.2)

/-- A validated route table entry (`RouteMapping`). -/
structure RouteMapping where
  hostname : String
  port : Int
  pid : Int
  deriving Repr, DecidableEq

/-- `isValidRoute` as an extractor: `typeof value === "object" && value !==
null` holds of JSON objects and arrays, but only an object can have string
`hostname`, numeric `port` and numeric `pid` properties (array and other
values yield `undefined` for them).  Unknown fields are ignored. -/
def toRoute (v : JVal) : Option RouteMapping :=
  match v with
  | .jobj fields =>
    match jLookup fields "hostname", jLookup fields "port", jLookup fields "pid" with
    | some (.jstr h), some (.jnum p), some (.jnum pid) => some ⟨h, p, pid⟩
    | _, _, _ => none
  | _ => none

/-- `isValidRoute` proper (the type-guard's boolean). -/
def isValidRoute (v : JVal) : Bool :=
  (toRoute v).isSome

/-- State of the routes file on disk. -/
inductive RoutesFile where
  | missing
  | invalidJson
  | parsed (v : JVal)
  deriving Repr

/-- Warning text for a file `JSON.parse` rejects. -/
def invalidJsonWarning : String := "Corrupted routes file (invalid JSON)"

/-- Warning text for a file that parses to a non-array. -/
def expectedArrayWarning : String := "Corrupted routes file (expected array)"

/-- Serialization of a route entry back to JSON (`JSON.stringify`). -/
def encodeRoute (r : RouteMapping) : JVal :=
  .jobj [("hostname", .jstr r.hostname), ("port", .jnum r.port), ("pid", .jnum r.pid)]

/-- `loadRoutes` (read part): the returned route list together with the
warnings issued through `onWarning`.  A missing file is an empty list; invalid
JSON or a non-array each warn and yield an empty list; array elements failing
`isValidRoute` are dropped; entries whose pid is not alive are filtered out. -/
def loadRoutes (f : RoutesFile) (alive : Int → Bool) :
    List RouteMapping × List String :=
  match f with
  | .missing => ([], [])
  | .invalidJson => ([], [invalidJsonWarning])
  | .parsed (.jarr xs) => ((xs.filterMap toRoute).filter (fun r => alive r.pid), [])
  | .parsed _ => ([], [expectedArrayWarning])

/-- `loadRoutes(true)` (persist-cleanup part): the file state after the read,
when the caller holds the lock.  The cleaned-up list is written back exactly
when liveness filtering dropped an entry. -/
def loadRoutesGCFile (f : RoutesFile) (alive : Int → Bool) : RoutesFile :=
  match f with
  | .parsed (.jarr xs) =>
    let routes := xs.filterMap toRoute
    let aliveRoutes := routes.filter (fun r => alive r.pid)
    if aliveRoutes.length ≠ routes.length then .parsed (.jarr (aliveRoutes.map encodeRoute))
    else f
  | _ => f

/-- `saveRoutes`: overwrite the file with the serialized list. -/
def saveRoutes (rs : List RouteMapping) : RoutesFile :=
  .parsed (.jarr (rs.map encodeRoute))

/-- Outcome of `addRoute`: the new file state on success, or a
`RouteConflictError` naming the existing pid — in which case the file state
is the one left by the locked `loadRoutes(true)` (the GC may have persisted).
Lock acquisition failure is outside this model (the lock serializes the
critical section embedded here). -/
inductive AddResult where
  | ok (f : RoutesFile)
  | conflict (existingPid : Int) (f : RoutesFile)
  deriving Repr

/-- `addRoute(hostname, port, pid, force)`: inside the lock, load with GC; if
a live entry exists for the hostname with a different pid and force is not
set, throw a conflict naming the existing pid; otherwise drop every entry for
the hostname, append the new one, and save. -/
def addRoute (f : RoutesFile) (alive : Int → Bool) (hostname : String)
    (port pid : Int) (force : Bool) : AddResult :=
  match (loadRoutes f alive).1.find? (fun r => r.hostname = hostname) with
  | some existing =>
    if existing.pid ≠ pid ∧ alive existing.pid ∧ force = false then
      .conflict existing.pid (loadRoutesGCFile f alive)
    else
      .ok (saveRoutes ((loadRoutes f alive).1.filter (fun r => ¬ r.hostname = hostname) ++
        [⟨hostname, port, pid⟩]))
  | none =>
    .ok (saveRoutes ((loadRoutes f alive).1.filter (fun r => ¬ r.hostname = hostname) ++
      [⟨hostname, port, pid⟩]))

/-- `removeRoute(hostname)`: inside the lock, load with GC, drop every entry
for the hostname, save. -/
def removeRoute (f : RoutesFile) (alive : Int → Bool) (hostname : String) :
    RoutesFile :=
  saveRoutes ((loadRoutes f alive).1.filter (fun r => ¬ r.hostname = hostname))

/-- The live table entries for one hostname, as seen by a subsequent load. -/
def entriesFor (f : RoutesFile) (alive : Int → Bool) (hostname : String) :
    List RouteMapping :=
  (loadRoutes f alive).1.filter (fun r => r.hostname = hostname)

/-! ## Hostname validator (`parseHostname` in `src/utils.ts`) -/

/-- A lowercase letter or a digit (`[a-z0-9]`). -/
def isLowerAlnum (c : Char) : Bool :=
  ('a' ≤ c && c ≤ 'z') || ('0' ≤ c && c ≤ '9')

/-- A character of the validator's name charset (`[a-z0-9.-]`). -/
def nameCharOk (c : Char) : Bool :=
  isLowerAlnum c || c = '.' || c = '-'

/-- The last character, when there is one, is a lowercase letter or digit. -/
def lastIsAlnum (cs : List Char) : Bool :=
  match cs.getLast? with
  | some c => isLowerAlnum c
  | none => false

/-- The first character, when there is one, is a lowercase letter or digit. -/
def firstIsAlnum (cs : List Char) : Bool :=
  match cs with
  | [] => false
  | c :: _ => isLowerAlnum c

/-- The test `/^[a-z0-9]([a-z0-9.-]*[a-z0-9])?$/.test(name)`: the name is
non-empty, every character is in `[a-z0-9.-]`, and the first and last
characters are in `[a-z0-9]` (for a one-character name those coincide). -/
def nameOk (cs : List Char) : Bool :=
  match cs with
  | [] => false
  | c :: _ => isLowerAlnum c && cs.all nameCharOk && lastIsAlnum cs

/-- `name.includes("..")`. -/
def hasDotDot : List Char → Bool
  | [] => false
  | [_] => false
  | a :: b :: rest => (a = '.' && b = '.') || hasDotDot (b :: rest)

/-- `input.trim()` at the character level (the whitespace the inputs here can
contain: space, tab, newline, carriage return). -/
def jsTrimChars (cs : List Char) : List Char :=
  ((cs.dropWhile jsIsSpace).reverse.dropWhile jsIsSpace).reverse

/-- `input.replace(/^https?:\/\//, "")`: strip one protocol prefix. -/
def stripProtocolChars (cs : List Char) : List Char :=
  if ("https://".toList).isPrefixOf cs then cs.drop 8
  else if ("http://".toList).isPrefixOf cs then cs.drop 7
  else cs

/-- The characters of the `.localhost` suffix. -/
def localhostSfx : List Char := ".localhost".toList

/-- `parseHostname`: trim, strip the protocol, take the part before the first
slash (`split("/")[0]`), lowercase (ASCII, matching `toLowerCase` on the
accepted charset); reject empty input; append `.localhost` when missing;
then validate the name (the hostname minus one trailing `.localhost`)
against the charset regex and the consecutive-dot rule.  The returned
hostname is the name followed by `.localhost` (when the input already ended
in `.localhost` this reassembles the very string the source returns). -/
def parseHostname (input : String) : Except String String :=
  let hostname0 := ((stripProtocolChars (jsTrimChars input.toList)).takeWhile
    (fun c => c ≠ '/')).map Char.toLower
  if hostname0 = [] ∨ hostname0 = localhostSfx then
    .error "Hostname cannot be empty"
  else
    let name :=
      if localhostSfx.isSuffixOf hostname0 then
        hostname0.take (hostname0.length - 10)
      else hostname0
    if hasDotDot name then
      .error ("Invalid hostname \"" ++ String.mk name ++
        "\": consecutive dots are not allowed")
    else if nameOk name = false then
      .error ("Invalid hostname \"" ++ String.mk name ++
        "\": must contain only lowercase letters, digits, hyphens, and dots")
    else
      .ok (String.mk (name ++ localhostSfx))

/-! Grammar checkers for the hostname claims.  These two definitions follow
the SPEC's words (the grammar `label("."label)* ".localhost"`), to be
compared with the validator embedded above. -/

/-- JavaScript-style split on `.`: `"a.b"` gives `["a","b"]`, the empty list
of characters gives one empty label, a leading/trailing dot gives an empty
label at that end. -/
def splitLabels : List Char → List (List Char)
  | [] => [[]]
  | c :: rest =>
    if c = '.' then [] :: splitLabels rest
    else
      match splitLabels rest with
      | [] => [[c]]
      | l :: ls => (c :: l) :: ls

/-- A label character per the spec grammar: `[a-z0-9-]`. -/
def labelCharOk (c : Char) : Bool :=
  isLowerAlnum c || c = '-'

/-- A label per the spec grammar: non-empty, over `[a-z0-9-]`, with no
leading or trailing hyphen. -/
def specLabelOk (l : List Char) : Bool :=
  match l with
  | [] => false
  | c :: _ =>
    c ≠ '-' && (match l.getLast? with | some d => d ≠ '-' | none => false) &&
      l.all labelCharOk

/-- Modelled from the spec: the claimed hostname grammar
`label("."label)* ".localhost"` with each label non-empty, lowercase over
`[a-z0-9-]`, and hyphen-free at both ends. -/
def specHostnameOk (h : String) : Bool :=
  localhostSfx.isSuffixOf h.toList &&
    (splitLabels (h.toList.take (h.toList.length - 10))).all specLabelOk

/-- A label as the validator actually guarantees it: non-empty and over
`[a-z0-9-]` (interior labels may begin or end with a hyphen). -/
def amendedLabelOk (l : List Char) : Bool :=
  match l with
  | [] => false
  | _ => l.all labelCharOk

/-- The property the validator actually establishes of the returned hostname:
it ends in `.localhost`; the name before that suffix is non-empty, begins and
ends with `[a-z0-9]`, and splits on dots into non-empty labels over
`[a-z0-9-]`. -/
def amendedHostnameOk (h : String) : Bool :=
  localhostSfx.isSuffixOf h.toList &&
    firstIsAlnum (h.toList.take (h.toList.length - 10)) &&
    lastIsAlnum (h.toList.take (h.toList.length - 10)) &&
    (splitLabels (h.toList.take (h.toList.length - 10))).all amendedLabelOk

/-! ## Certificate validity (`isCertValid` / `ensureCerts` in `certs.ts`) -/

/-- The observations `isCertValid` could make of a stored PEM certificate
file: whether `new crypto.X509Certificate(pem)` succeeds, the `validTo`
(notAfter) instant in milliseconds, and — for stating the claim — whether the
signature algorithm is SHA-1.  The code never reads the signature algorithm. -/
structure CertFile where
  parses : Bool
  notAfterMs : Int
  sigSha1 : Bool
  deriving Repr, DecidableEq

/-- `EXPIRY_BUFFER_MS`: 7 days in milliseconds. -/
def EXPIRY_BUFFER_MS : Int := 7 * 24 * 60 * 60 * 1000

/-- `isCertValid(path)` at time `nowMs`, where `none` is a missing or
unreadable file (`readFileSync` throws, caught to `false`): the file must be
present, parse as X.509, and satisfy `Date.now() + EXPIRY_BUFFER_MS <
expiry`.  No other property of the certificate is consulted. -/
def isCertValid (nowMs : Int) (file : Option CertFile) : Bool :=
  match file with
  | none => false
  | some c => c.parses && decide (nowMs + EXPIRY_BUFFER_MS < c.notAfterMs)

/-- The on-disk state `ensureCerts` examines. -/
structure CertState where
  caCert : Option CertFile
  caKey : Bool
  serverCert : Option CertFile
  deriving Repr, DecidableEq

/-- `ensureCerts` decision: the CA is regenerated when its cert or key file
is missing or the cert is invalid (`caGenerated`). -/
def caRegenerated (nowMs : Int) (st : CertState) : Bool :=
  st.caCert.isNone || st.caKey = false || isCertValid nowMs st.caCert = false

/-- `ensureCerts` decision: the default server leaf is regenerated when the
CA was regenerated, or the leaf is missing or invalid. -/
def serverRegenerated (nowMs : Int) (st : CertState) : Bool :=
  caRegenerated nowMs st || st.serverCert.isNone ||
    isCertValid nowMs st.serverCert = false

/-! ## Helper lemmas -/

theorem find?_eq_head?_filter {α : Type} (p : α → Bool) (l : List α) :
    l.find? p = (l.filter p).head? := by
  induction l with
  | nil => rfl
  | cons a t ih =>
    rw [List.find?_cons, List.filter_cons]
    cases hp : p a with
    | true => rfl
    | false => rw [if_neg (by simp [hp])]; exact ih

theorem toRoute_encodeRoute (r : RouteMapping) : toRoute (encodeRoute r) = some r := rfl

theorem loadRoutes_saveRoutes (rs : List RouteMapping) (alive : Int → Bool) :
    loadRoutes (saveRoutes rs) alive = (rs.filter (fun r => alive r.pid), []) := by
  show (((rs.map encodeRoute).filterMap toRoute).filter (fun r => alive r.pid), []) = _
  rw [List.filterMap_map,
    show (toRoute ∘ encodeRoute) = some from funext toRoute_encodeRoute,
    List.filterMap_some]

theorem alive_of_mem_loadRoutes (f : RoutesFile) (alive : Int → Bool)
    (r : RouteMapping) (hr : r ∈ (loadRoutes f alive).1) : alive r.pid = true := by
  cases f with
  | missing => simp [loadRoutes] at hr
  | invalidJson => simp [loadRoutes] at hr
  | parsed v =>
    cases v with
    | jarr xs =>
      simp only [loadRoutes, List.mem_filter] at hr
      exact hr.2
    | jnull => simp [loadRoutes] at hr
    | jbool b => simp [loadRoutes] at hr
    | jnum n => simp [loadRoutes] at hr
    | jstr s => simp [loadRoutes] at hr
    | jobj fields => simp [loadRoutes] at hr

theorem loadRoutes_loadRoutesGCFile (f : RoutesFile) (alive : Int → Bool) :
    (loadRoutes (loadRoutesGCFile f alive) alive).1 = (loadRoutes f alive).1 := by
  cases f with
  | missing => rfl
  | invalidJson => rfl
  | parsed v =>
    cases v with
    | jarr xs =>
      simp only [loadRoutesGCFile]
      split
      · show (loadRoutes (saveRoutes _) alive).1 = _
        rw [loadRoutes_saveRoutes]
        simp [loadRoutes, List.filter_filter]
      · rfl
    | jnull => rfl
    | jbool b => rfl
    | jnum n => rfl
    | jstr s => rfl
    | jobj fields => rfl

theorem entriesFor_saveRoutes (rs : List RouteMapping) (alive : Int → Bool)
    (hn : String) :
    entriesFor (saveRoutes rs) alive hn =
      (rs.filter (fun r => alive r.pid)).filter (fun r => r.hostname = hn) := by
  simp [entriesFor, loadRoutes_saveRoutes]

theorem filter_ne_eq_nil (l : List RouteMapping) (alive : Int → Bool) (hn : String) :
    (((l.filter (fun r => ¬ r.hostname = hn)).filter (fun r => alive r.pid)).filter
      (fun r => r.hostname = hn)) = [] := by
  simp only [List.filter_filter, List.filter_eq_nil_iff]
  intro a _
  by_cases hah : a.hostname = hn <;> simp [hah]

theorem addRoute_ok_file (f : RoutesFile) (alive : Int → Bool) (h : String)
    (p pid : Int) (force : Bool) (f1 : RoutesFile)
    (hadd : addRoute f alive h p pid force = .ok f1) :
    f1 = saveRoutes ((loadRoutes f alive).1.filter (fun r => ¬ r.hostname = h) ++
      [⟨h, p, pid⟩]) := by
  unfold addRoute at hadd
  split at hadd
  · split at hadd
    · cases hadd
    · cases hadd; rfl
  · cases hadd; rfl

theorem addRoute_conflict_file (f : RoutesFile) (alive : Int → Bool) (h : String)
    (p pid : Int) (force : Bool) (q : Int) (f1 : RoutesFile)
    (hadd : addRoute f alive h p pid force = .conflict q f1) :
    f1 = loadRoutesGCFile f alive := by
  unfold addRoute at hadd
  split at hadd
  · split at hadd
    · cases hadd; rfl
    · cases hadd
  · cases hadd

theorem entriesFor_after_dropHost (f : RoutesFile) (alive : Int → Bool)
    (h h' : String) (hne : h' ≠ h) :
    ((((loadRoutes f alive).1.filter (fun r => ¬ r.hostname = h)).filter
        (fun r => alive r.pid)).filter (fun r => r.hostname = h')) =
      entriesFor f alive h' := by
  simp only [entriesFor, List.filter_filter]
  refine List.filter_congr ?_
  intro r hr
  have halive := alive_of_mem_loadRoutes f alive r hr
  by_cases hrh : r.hostname = h'
  · simp [hrh, halive, hne]
  · simp [hrh]

theorem entriesFor_removeRoute (f : RoutesFile) (alive : Int → Bool) (hn : String) :
    entriesFor (removeRoute f alive hn) alive hn = [] := by
  rw [removeRoute, entriesFor_saveRoutes]
  exact filter_ne_eq_nil _ _ _

/-! ## Claim theorems: route store -/

/-- C3: with `pid` the pid of a live process, a successful
`addRoute(h, p, pid)` leaves exactly one loaded entry for `h`, namely
`{h, p, pid}`; a subsequent `removeRoute(h)` leaves no loaded entry for `h`;
and a second `addRoute(h, p2, pid)` succeeds and leaves the single entry
`{h, p2, pid}`. -/
theorem addRoute_load_remove_update (f : RoutesFile) (alive : Int → Bool)
    (h : String) (p p2 pid : Int) (halive : alive pid = true) (f1 : RoutesFile)
    (hadd : addRoute f alive h p pid false = .ok f1) :
    entriesFor f1 alive h = [⟨h, p, pid⟩] ∧
    entriesFor (removeRoute f1 alive h) alive h = [] ∧
    ∃ f2, addRoute f1 alive h p2 pid false = .ok f2 ∧
      entriesFor f2 alive h = [⟨h, p2, pid⟩] := by
  have hf1 := addRoute_ok_file f alive h p pid false f1 hadd
  have hone : entriesFor f1 alive h = [⟨h, p, pid⟩] := by
    rw [hf1, entriesFor_saveRoutes, List.filter_append, List.filter_append,
      filter_ne_eq_nil]
    simp [halive]
  refine ⟨hone, entriesFor_removeRoute f1 alive h, ?_⟩
  have hfind1 : (loadRoutes f1 alive).1.find? (fun r => r.hostname = h) =
      some ⟨h, p, pid⟩ := by
    rw [find?_eq_head?_filter]
    have : (loadRoutes f1 alive).1.filter (fun r => r.hostname = h) =
        [⟨h, p, pid⟩] := hone
    rw [this]
    rfl
  refine ⟨saveRoutes ((loadRoutes f1 alive).1.filter (fun r => ¬ r.hostname = h) ++
    [⟨h, p2, pid⟩]), ?_, ?_⟩
  · rw [addRoute, hfind1]
    dsimp only
    rw [if_neg]
    intro hc
    exact hc.1 rfl
  · rw [entriesFor_saveRoutes, List.filter_append, List.filter_append,
      filter_ne_eq_nil]
    simp [halive]

/-- C3 witness: adding `app.localhost -> 4001` owned by live pid 100 into an
empty (missing) routes file behaves as the theorem states. -/
theorem addRoute_load_remove_update_witness :
    entriesFor (saveRoutes [⟨"app.localhost", 4001, 100⟩]) (fun _ => true)
        "app.localhost" = [⟨"app.localhost", 4001, 100⟩] ∧
    entriesFor (removeRoute (saveRoutes [⟨"app.localhost", 4001, 100⟩])
        (fun _ => true) "app.localhost") (fun _ => true) "app.localhost" = [] ∧
    ∃ f2, addRoute (saveRoutes [⟨"app.localhost", 4001, 100⟩]) (fun _ => true)
        "app.localhost" 4002 100 false = .ok f2 ∧
      entriesFor f2 (fun _ => true) "app.localhost" =
        [⟨"app.localhost", 4002, 100⟩] :=
  addRoute_load_remove_update .missing (fun _ => true) "app.localhost" 4001 4002
    100 rfl (saveRoutes [⟨"app.localhost", 4001, 100⟩]) rfl

/-- C4: when the loaded table maps `h` to an entry owned by live pid `q` and
a different pid `pid'` calls `addRoute(h, p', pid')` without force, the call
fails with a conflict naming `q`, and the loaded table still maps `h` to the
same entry afterwards (the file state after the failed call is the one left
by the locked load-with-GC). -/
theorem addRoute_conflict_preserves (f : RoutesFile) (alive : Int → Bool)
    (h : String) (p0 q p' pid' : Int) (halq : alive q = true) (hq : pid' ≠ q)
    (hentry : entriesFor f alive h = [⟨h, p0, q⟩]) :
    addRoute f alive h p' pid' false = .conflict q (loadRoutesGCFile f alive) ∧
    entriesFor (loadRoutesGCFile f alive) alive h = [⟨h, p0, q⟩] := by
  have hfind : (loadRoutes f alive).1.find? (fun r => r.hostname = h) =
      some ⟨h, p0, q⟩ := by
    rw [find?_eq_head?_filter]
    have : (loadRoutes f alive).1.filter (fun r => r.hostname = h) =
        [⟨h, p0, q⟩] := hentry
    rw [this]
    rfl
  constructor
  · rw [addRoute, hfind]
    dsimp only
    rw [if_pos]
    exact ⟨fun e => hq e.symm, halq, rfl⟩
  · rw [entriesFor, loadRoutes_loadRoutesGCFile]
    exact hentry

/-- C4 witness: with `app.localhost -> 4001` owned by live pid 100, an
`addRoute("app.localhost", 4002, 200)` without force conflicts naming pid 100
and the table still maps `app.localhost` to 4001. -/
theorem addRoute_conflict_preserves_witness :
    addRoute (saveRoutes [⟨"app.localhost", 4001, 100⟩]) (fun _ => true)
        "app.localhost" 4002 200 false =
      .conflict 100 (loadRoutesGCFile (saveRoutes [⟨"app.localhost", 4001, 100⟩])
        (fun _ => true)) ∧
    entriesFor (loadRoutesGCFile (saveRoutes [⟨"app.localhost", 4001, 100⟩])
        (fun _ => true)) (fun _ => true) "app.localhost" =
      [⟨"app.localhost", 4001, 100⟩] :=
  addRoute_conflict_preserves (saveRoutes [⟨"app.localhost", 4001, 100⟩])
    (fun _ => true) "app.localhost" 4001 100 4002 200 rfl (by decide) rfl

/-- C10 (frame effect): for any other hostname `h' ≠ h`, the loaded table
entries for `h'` are unchanged by `addRoute(h, p, pid, force)` — whether it
succeeds or fails with a conflict — and by `removeRoute(h)`. -/
theorem routeStore_frame (f : RoutesFile) (alive : Int → Bool) (h h' : String)
    (p pid : Int) (force : Bool) (hne : h' ≠ h) :
    (∀ f1, addRoute f alive h p pid force = .ok f1 →
      entriesFor f1 alive h' = entriesFor f alive h') ∧
    (∀ q f1, addRoute f alive h p pid force = .conflict q f1 →
      entriesFor f1 alive h' = entriesFor f alive h') ∧
    entriesFor (removeRoute f alive h) alive h' = entriesFor f alive h' := by
  refine ⟨?_, ?_, ?_⟩
  · intro f1 hadd
    rw [addRoute_ok_file f alive h p pid force f1 hadd, entriesFor_saveRoutes,
      List.filter_append, List.filter_append]
    have hne' : ¬ h = h' := fun e => hne e.symm
    have hsingle : (([⟨h, p, pid⟩] : List RouteMapping).filter
        (fun r => alive r.pid)).filter (fun r => r.hostname = h') = [] := by
      by_cases ha : alive pid = true <;> simp [List.filter_cons, ha, hne']
    rw [hsingle, List.append_nil]
    exact entriesFor_after_dropHost f alive h h' hne
  · intro q f1 hadd
    rw [addRoute_conflict_file f alive h p pid force q f1 hadd, entriesFor,
      loadRoutes_loadRoutesGCFile]
    rfl
  · rw [removeRoute, entriesFor_saveRoutes]
    exact entriesFor_after_dropHost f alive h h' hne

/-- C10 witness: adding `api.localhost` and removing `app.localhost` leave
the entry for the other live hostname untouched. -/
theorem routeStore_frame_witness :
    (∀ f1, addRoute (saveRoutes [⟨"web.localhost", 4001, 100⟩]) (fun _ => true)
        "api.localhost" 4002 200 false = .ok f1 →
      entriesFor f1 (fun _ => true) "web.localhost" =
        entriesFor (saveRoutes [⟨"web.localhost", 4001, 100⟩]) (fun _ => true)
          "web.localhost") ∧
    (∀ q f1, addRoute (saveRoutes [⟨"web.localhost", 4001, 100⟩]) (fun _ => true)
        "api.localhost" 4002 200 false = .conflict q f1 →
      entriesFor f1 (fun _ => true) "web.localhost" =
        entriesFor (saveRoutes [⟨"web.localhost", 4001, 100⟩]) (fun _ => true)
          "web.localhost") ∧
    entriesFor (removeRoute (saveRoutes [⟨"web.localhost", 4001, 100⟩])
        (fun _ => true) "api.localhost") (fun _ => true) "web.localhost" =
      entriesFor (saveRoutes [⟨"web.localhost", 4001, 100⟩]) (fun _ => true)
        "web.localhost" :=
  routeStore_frame (saveRoutes [⟨"web.localhost", 4001, 100⟩]) (fun _ => true)
    "api.localhost" "web.localhost" 4002 200 false (by decide)

/-- A JSON array element failing the route schema (no `port`, no `pid`). -/
def badRouteElem : JVal := .jobj [("hostname", .jstr "app.localhost")]

/-- C5 counterexample: an array element failing schema validation is dropped
with NO warning — `loadRoutes` filters it out silently (the code only warns
for invalid JSON and for a non-array file), contradicting the claim that each
dropped element produces a warning. -/
theorem loadRoutes_invalid_entry_silent :
    isValidRoute badRouteElem = false ∧
    loadRoutes (.parsed (.jarr [badRouteElem])) (fun _ => true) = ([], []) :=
  ⟨rfl, rfl⟩

/-- C5 (amended): `loadRoutes` returns an empty list for a missing file;
warns and returns an empty list for invalid JSON and for a JSON value that is
not an array; SILENTLY drops (no warning) every array element failing schema
validation (`hostname` string, `port` number, `pid` number — unknown fields
ignored); and filters out every entry whose pid is not alive: a loaded entry
is exactly a schema-valid array element with a live pid. -/
theorem loadRoutes_cases (alive : Int → Bool) :
    loadRoutes .missing alive = ([], []) ∧
    loadRoutes .invalidJson alive = ([], [invalidJsonWarning]) ∧
    (∀ v : JVal, (∀ xs, v ≠ .jarr xs) →
      loadRoutes (.parsed v) alive = ([], [expectedArrayWarning])) ∧
    (∀ xs : List JVal,
      (loadRoutes (.parsed (.jarr xs)) alive).2 = [] ∧
      ∀ r : RouteMapping,
        r ∈ (loadRoutes (.parsed (.jarr xs)) alive).1 ↔
          alive r.pid = true ∧ ∃ x ∈ xs, toRoute x = some r) ∧
    (∀ (r : RouteMapping) (extra : List (String × JVal)),
      (∀ e ∈ extra, e.1 ≠ "hostname" ∧ e.1 ≠ "port" ∧ e.1 ≠ "pid") →
      toRoute (.jobj ([("hostname", .jstr r.hostname), ("port", .jnum r.port),
        ("pid", .jnum r.pid)] ++ extra)) = some r) := by
  refine ⟨rfl, rfl, ?_, ?_, ?_⟩
  · intro v hv
    cases v with
    | jarr xs => exact absurd rfl (hv xs)
    | jnull => rfl
    | jbool b => rfl
    | jnum n => rfl
    | jstr s => rfl
    | jobj fields => rfl
  · intro xs
    refine ⟨rfl, ?_⟩
    intro r
    simp only [loadRoutes, List.mem_filter, List.mem_filterMap]
    constructor
    · rintro ⟨⟨x, hx, hxr⟩, halive⟩
      exact ⟨halive, x, hx, hxr⟩
    · rintro ⟨halive, x, hx, hxr⟩
      exact ⟨⟨x, hx, hxr⟩, halive⟩
  · intro r extra hextra
    have hfind : ∀ k, k = "hostname" ∨ k = "port" ∨ k = "pid" →
        List.find? (fun e => e.1 = k) extra.reverse = none := by
      intro k hk
      rw [List.find?_eq_none]
      intro x hx
      have := hextra x (List.mem_reverse.1 hx)
      rcases hk with hk | hk | hk <;> subst hk <;> simp [this.1, this.2.1, this.2.2]
    simp only [toRoute, jLookup, List.reverse_append, List.find?_append,
      hfind "hostname" (Or.inl rfl), hfind "port" (Or.inr (Or.inl rfl)),
      hfind "pid" (Or.inr (Or.inr rfl))]
    rfl

/-- C5 witness for the amended theorem: a missing file loads as empty with no
warning, and a parsed non-array (the JSON value `3`) warns and loads empty. -/
theorem loadRoutes_cases_witness :
    loadRoutes .missing (fun _ => true) = ([], []) ∧
    loadRoutes (.parsed (.jnum 3)) (fun _ => true) = ([], [expectedArrayWarning]) :=
  ⟨(loadRoutes_cases (fun _ => true)).1,
    (loadRoutes_cases (fun _ => true)).2.2.1 (.jnum 3) (fun _xs h => JVal.noConfusion h)⟩

/-! ## Helper lemmas: headers and substrings -/

theorem headerGet_eq_none_iff (hs : Headers) (k : String) :
    headerGet hs k = none ↔ ∀ e ∈ hs, ¬ e.1 = k := by
  simp [headerGet, List.find?_eq_none]

theorem headerGet_filter_eq_none (hs : Headers) (q : String × String → Bool)
    (k : String) (h : headerGet hs k = none) :
    headerGet (hs.filter q) k = none := by
  rw [headerGet_eq_none_iff] at h ⊢
  intro e he
  exact h e (List.mem_of_mem_filter he)

theorem headerGet_writeHeadMerge_of_some (base explicit : Headers) (k v : String)
    (he : headerGet explicit k = some v) :
    headerGet (writeHeadMerge base explicit) k = some v := by
  unfold headerGet at he ⊢
  unfold writeHeadMerge
  rw [List.find?_append]
  cases hfe : explicit.find? (fun e => e.1 = k) with
  | none => rw [hfe] at he; cases he
  | some e => rw [hfe] at he; simp [hfe, he]

theorem headerGet_writeHeadMerge_of_none (base explicit : Headers) (k : String)
    (he : headerGet explicit k = none) :
    headerGet (writeHeadMerge base explicit) k = headerGet base k := by
  have hfe : explicit.find? (fun e => e.1 = k) = none := by
    unfold headerGet at he
    cases hfind : explicit.find? (fun e => e.1 = k) with
    | none => rfl
    | some e => rw [hfind] at he; cases he
  unfold headerGet writeHeadMerge
  rw [List.find?_append, hfe, Option.none_or]
  congr 1
  rw [find?_eq_head?_filter, find?_eq_head?_filter, List.filter_filter]
  congr 1
  refine List.filter_congr ?_
  intro e _
  by_cases hek : e.1 = k
  · simp [hek, hfe]
  · simp [hek]

theorem headerGet_headerSet_self (hs : Headers) (k v : String) :
    headerGet (headerSet hs k v) k = some v := by
  unfold headerSet
  split
  · next hsome =>
    unfold headerGet
    rw [List.find?_map]
    have hcong : ((fun e : String × String => decide (e.1 = k)) ∘
        (fun e : String × String => if e.1 = k then (k, v) else e)) =
        (fun e : String × String => decide (e.1 = k)) := by
      funext e
      by_cases hek : e.1 = k <;> simp [hek]
    rw [hcong]
    cases hfind : hs.find? (fun e => e.1 = k) with
    | none => rw [hfind] at hsome; simp at hsome
    | some e =>
      have he : e.1 = k := by simpa using List.find?_some hfind
      simp [hfind, he]
  · unfold headerGet
    rw [List.find?_append]
    have : hs.find? (fun e => e.1 = k) = none := by
      next hnone => cases hfind : hs.find? (fun e => e.1 = k) with
        | none => rfl
        | some e => rw [hfind] at hnone; simp at hnone
    simp [this]

theorem headerGet_filterPseudo (hs : Headers) (k : String)
    (hk : startsWithColon k = false) :
    headerGet (hs.filter (fun e => ¬ startsWithColon e.1)) k = headerGet hs k := by
  unfold headerGet
  rw [find?_eq_head?_filter, find?_eq_head?_filter, List.filter_filter]
  congr 1
  congr 1
  refine List.filter_congr ?_
  intro e _
  by_cases hek : e.1 = k
  · simp [hek, hk]
  · simp [hek]

theorem headerGet_buildProxyReqHeaders_hops (req : Request) (isTls : Bool)
    (hops : Int) :
    headerGet (buildProxyReqHeaders req isTls hops) PORTLESS_HOPS_HEADER =
      some (toString (hops + 1)) := by
  unfold buildProxyReqHeaders
  rw [headerGet_filterPseudo _ _ (by decide)]
  exact headerGet_headerSet_self _ _ _

theorem strContains_infix_iff (s pat : String) :
    strContains s pat = true ↔ pat.toList <:+: s.toList := by
  unfold strContains
  rw [List.any_eq_true]
  constructor
  · rintro ⟨t, ht, hp⟩
    exact List.infix_iff_prefix_suffix.2
      ⟨t, List.isPrefixOf_iff_prefix.1 hp, (List.mem_tails _ _).1 ht⟩
  · intro h
    rcases List.infix_iff_prefix_suffix.1 h with ⟨t, hpre, hsuf⟩
    exact ⟨t, (List.mem_tails _ _).2 hsuf, List.isPrefixOf_iff_prefix.2 hpre⟩

theorem strContains_append_right (x y pat : String)
    (h : strContains y pat = true) : strContains (x ++ y) pat = true := by
  rw [strContains_infix_iff] at h ⊢
  show pat.toList <:+: (x ++ y).data
  rw [String.data_append]
  exact h.trans (List.suffix_append _ _).isInfix

theorem strContains_loopBody_changeOrigin (hops : Int) :
    strContains (loopBody hops) "changeOrigin" = true := by
  unfold loopBody
  exact strContains_append_right _ _ _ (by decide)

/-! ## Claim theorems: proxy engine -/

/-- C1: on every request, the `X-Portless-Hops` header is parsed as an
integer with absent or unparsable values counting as 0; with a non-empty
host, a hop count at or above the threshold of 5 is answered by the proxy
itself with a 508, Content-Type text/plain and a body mentioning
`changeOrigin` (no backend request is opened); below the threshold a matched
request is forwarded with `X-Portless-Hops` set to the parsed value plus 1;
a WebSocket upgrade at or above the threshold is answered by writing a raw
HTTP/1.1 508 response on the socket. -/
theorem loop_detection (isTls : Bool) (proxyPort : Int) (routes : List RouteInfo)
    (req : Request) :
    (headerGet req.headers PORTLESS_HOPS_HEADER = none → hopsOf req = 0) ∧
    (∀ s, headerGet req.headers PORTLESS_HOPS_HEADER = some s →
      parseIntJS s = none → hopsOf req = 0) ∧
    (beforeColon (getRequestHost req) ≠ "" → MAX_PROXY_HOPS ≤ hopsOf req →
      handleRequest isTls proxyPort routes req = .respond (loopResponse (hopsOf req)) ∧
      (loopResponse (hopsOf req)).status = 508 ∧
      headerGet (loopResponse (hopsOf req)).headers "content-type" =
        some "text/plain" ∧
      strContains (loopResponse (hopsOf req)).body "changeOrigin" = true) ∧
    (beforeColon (getRequestHost req) ≠ "" → hopsOf req < MAX_PROXY_HOPS →
      ∀ route, routes.find?
          (fun r => r.hostname = beforeColon (getRequestHost req)) = some route →
        handleRequest isTls proxyPort routes req =
          .forward route.port (buildProxyReqHeaders req isTls (hopsOf req)) ∧
        headerGet (buildProxyReqHeaders req isTls (hopsOf req))
          PORTLESS_HOPS_HEADER = some (toString (hopsOf req + 1))) ∧
    (MAX_PROXY_HOPS ≤ hopsOf req →
      handleUpgrade isTls routes req = .socketEnd ws508Raw ∧
      ("HTTP/1.1 508".toList).isPrefixOf ws508Raw.toList = true ∧
      strContains ws508Raw "changeOrigin" = true) := by
  refine ⟨?_, ?_, ?_, ?_, ?_⟩
  · intro h
    unfold hopsOf
    rw [h]
  · intro s hs hparse
    simp only [hopsOf, hs, hparse]
  · intro hhost hge
    refine ⟨?_, rfl, rfl, strContains_loopBody_changeOrigin _⟩
    simp only [handleRequest]
    rw [if_neg hhost, if_pos hge]
  · intro hhost hlt route hfind
    refine ⟨?_, headerGet_buildProxyReqHeaders_hops req isTls (hopsOf req)⟩
    simp only [handleRequest]
    rw [if_neg hhost, if_neg (not_le.2 hlt), hfind]
  · intro hge
    refine ⟨?_, by decide, by decide⟩
    simp only [handleUpgrade]
    rw [if_pos hge]

/-- Routes and request used to witness the loop-detection theorem. -/
def exRoutes : List RouteInfo := [⟨"app.localhost", 4001⟩]

/-- A request for `app.localhost` whose `X-Portless-Hops` header is `5`. -/
def loopReq : Request :=
  { headers := [("host", "app.localhost"), ("x-portless-hops", "5")]
    remoteAddress := some "127.0.0.1"
    url := "/"
    method := "GET" }

/-- C1 witness: a request at the hop threshold gets the 508 and a WebSocket
upgrade at the threshold gets the raw socket 508. -/
theorem loop_detection_witness :
    handleRequest false 1355 exRoutes loopReq = .respond (loopResponse (hopsOf loopReq)) ∧
    handleUpgrade false exRoutes loopReq = .socketEnd ws508Raw :=
  ⟨((loop_detection false 1355 exRoutes loopReq).2.2.1 (by decide) (by decide)).1,
   ((loop_detection false 1355 exRoutes loopReq).2.2.2.2 (by decide)).1⟩

/-- A WebSocket upgrade request at the hop threshold. -/
def wsLoopReq : Request :=
  { headers := [("host", "app.localhost"), ("connection", "Upgrade"),
      ("upgrade", "websocket"), ("x-portless-hops", "5")]
    remoteAddress := some "127.0.0.1"
    url := "/"
    method := "GET" }

/-- C2 counterexample: the raw HTTP/1.1 508 written on the socket for a
looping WebSocket upgrade does NOT carry `X-Portless: 1` — the claim that
every proxy-generated response, including this one, carries the header is
false at this input. -/
theorem ws508_no_portless_header :
    handleUpgrade false [⟨"app.localhost", 4001⟩] wsLoopReq = .socketEnd ws508Raw ∧
    strContains ws508Raw "X-Portless" = false ∧
    strContains ws508Raw "x-portless" = false :=
  ⟨rfl, by decide, by decide⟩

/-- C2 (amended): every HTTP response the proxy writes itself (the 400 for a
missing host, the 404 for an unknown host, the 508 for a loop) carries
`X-Portless: 1` because `handleRequest` sets the header on the response
object first; a relayed backend response ALSO carries `X-Portless: 1`
whenever the backend did not set that header itself, since `writeHead` merges
the headers set with `setHeader` into the relayed head; the raw
WebSocket-upgrade 508 carries no `X-Portless` header. -/
theorem portless_header_policy (isTls : Bool) (proxyPort : Int)
    (routes : List RouteInfo) (req : Request) (b : BackendResponse) :
    (∀ resp, handleRequest isTls proxyPort routes req = .respond resp →
      headerGet resp.headers PORTLESS_HEADER = some "1") ∧
    (headerGet b.headers PORTLESS_HEADER = none →
      headerGet (relayResponse isTls b).headers PORTLESS_HEADER = some "1") ∧
    strContains ws508Raw "x-portless" = false := by
  refine ⟨?_, ?_, by decide⟩
  · intro resp hr
    simp only [handleRequest] at hr
    split at hr
    · cases hr; rfl
    · split at hr
      · cases hr; rfl
      · split at hr
        · cases hr; rfl
        · cases hr
  · intro hb
    unfold relayResponse
    dsimp only
    have hnone : headerGet
        (if isTls then b.headers.filter (fun e => ¬ HOP_BY_HOP_HEADERS.contains e.1)
         else b.headers) PORTLESS_HEADER = none := by
      cases isTls with
      | true => simpa using headerGet_filter_eq_none b.headers _ _ hb
      | false => simpa using hb
    rw [headerGet_writeHeadMerge_of_none _ _ _ hnone]
    rfl

/-- A request with an unknown host, used in the C2 witness. -/
def unknownHostReq : Request :=
  { headers := [("host", "nope.localhost")]
    remoteAddress := some "127.0.0.1"
    url := "/"
    method := "GET" }

/-- C2 witness: the 404 for an unknown host carries `X-Portless: 1`, and a
relayed backend response whose backend did not set the header carries it
too. -/
theorem portless_header_policy_witness :
    headerGet (notFoundResponse "nope.localhost" [] 1355 false).headers
        PORTLESS_HEADER = some "1" ∧
    headerGet (relayResponse false
        ⟨200, [("content-type", "text/plain")], "hi"⟩).headers
      PORTLESS_HEADER = some "1" :=
  ⟨(portless_header_policy false 1355 [] unknownHostReq
      ⟨200, [("content-type", "text/plain")], "hi"⟩).1 _ rfl,
   (portless_header_policy false 1355 [] unknownHostReq
      ⟨200, [("content-type", "text/plain")], "hi"⟩).2.1 rfl⟩

/-- A request, arriving over plain HTTP, with no incoming
X-Forwarded-Proto header. -/
def plainProtoReq : Request :=
  { headers := [("host", "app.localhost:1355")]
    remoteAddress := some "127.0.0.1"
    url := "/"
    method := "GET" }

/-- C6 counterexample: on a TLS-enabled proxy, a connection opening with the
byte 0x47 (the `G` of a plain-HTTP `GET`) is dispatched to the plain
HTTP/1.1 inner server, yet the forwarded headers built for it set
`x-forwarded-proto: https` although no TLS terminated this hop — the
handlers capture the server-creation TLS flag, so the claim's "https if and
only if TLS terminated this hop" is false at this input. -/
theorem tls_proxy_https_proto_for_plain_client :
    connKindOf 0x47 = .plainConn ∧
    headerGet plainProtoReq.headers "x-forwarded-proto" = none ∧
    headerGet (serverForwardedHeaders true (connKindOf 0x47) plainProtoReq)
      "x-forwarded-proto" = some "https" :=
  ⟨rfl, rfl, rfl⟩

/-- C6 (amended): for every forwarded request, whatever the kind of the
client connection, `X-Forwarded-For` appends the client's remote address to
any (non-falsy) incoming value and is the remote address alone when the
header is absent; `X-Forwarded-Proto`, when absent, is set to `https`
exactly when the proxy was created with TLS and to `http` otherwise — the
server-creation flag, not whether TLS terminated the individual hop — and a
non-empty incoming value is preserved; `X-Forwarded-Host`, when absent, is
the effective host; `X-Forwarded-Port`, when absent, is the host header's
port suffix or the protocol default; and no header whose name begins with
`:` survives into the forwarded header set. -/
theorem forwarded_headers_injected (serverTls : Bool) (conn : ConnKind)
    (req : Request) :
    (∀ v, headerGet req.headers "x-forwarded-for" = some v → v ≠ "" →
      headerGet (serverForwardedHeaders serverTls conn req) "x-forwarded-for" =
        some (v ++ ", " ++ jsOrS req.remoteAddress "127.0.0.1")) ∧
    (headerGet req.headers "x-forwarded-for" = none →
      headerGet (serverForwardedHeaders serverTls conn req) "x-forwarded-for" =
        some (jsOrS req.remoteAddress "127.0.0.1")) ∧
    (headerGet req.headers "x-forwarded-proto" = none →
      headerGet (serverForwardedHeaders serverTls conn req) "x-forwarded-proto" =
        some (if serverTls then "https" else "http")) ∧
    (∀ v, headerGet req.headers "x-forwarded-proto" = some v → v ≠ "" →
      headerGet (serverForwardedHeaders serverTls conn req) "x-forwarded-proto" =
        some v) ∧
    (headerGet req.headers "x-forwarded-host" = none →
      headerGet (serverForwardedHeaders serverTls conn req) "x-forwarded-host" =
        some (getRequestHost req)) ∧
    (headerGet req.headers "x-forwarded-port" = none →
      headerGet (serverForwardedHeaders serverTls conn req) "x-forwarded-port" =
        some (jsOrS (secondColonChunk (getRequestHost req))
          (if serverTls then "443" else "80"))) ∧
    (∀ hops e, e ∈ buildProxyReqHeaders req serverTls hops →
      startsWithColon e.1 = false) := by
  have hfor : headerGet (serverForwardedHeaders serverTls conn req)
      "x-forwarded-for" =
      some (match headerGet req.headers "x-forwarded-for" with
        | some v => if v = "" then jsOrS req.remoteAddress "127.0.0.1"
            else v ++ ", " ++ jsOrS req.remoteAddress "127.0.0.1"
        | none => jsOrS req.remoteAddress "127.0.0.1") := rfl
  have hproto : headerGet (serverForwardedHeaders serverTls conn req)
      "x-forwarded-proto" =
      some (jsOrS (headerGet req.headers "x-forwarded-proto")
        (if serverTls then "https" else "http")) := rfl
  have hhost : headerGet (serverForwardedHeaders serverTls conn req)
      "x-forwarded-host" =
      some (jsOrS (headerGet req.headers "x-forwarded-host")
        (getRequestHost req)) := rfl
  have hport : headerGet (serverForwardedHeaders serverTls conn req)
      "x-forwarded-port" =
      some (jsOrS (headerGet req.headers "x-forwarded-port")
        (jsOrS (secondColonChunk (getRequestHost req))
          (if serverTls then "443" else "80"))) := rfl
  refine ⟨?_, ?_, ?_, ?_, ?_, ?_, ?_⟩
  · intro v hv hne
    rw [hfor, hv]
    simp [hne]
  · intro hv
    rw [hfor, hv]
  · intro hv
    rw [hproto, hv]
    rfl
  · intro v hv hne
    rw [hproto, hv]
    simp [jsOrS, hne]
  · intro hv
    rw [hhost, hv]
    rfl
  · intro hv
    rw [hport, hv]
    rfl
  · intro hops e he
    have := List.mem_filter.1 he
    simpa using this.2

/-- A request carrying an incoming X-Forwarded-For chain, for the C6
witness. -/
def chainedReq : Request :=
  { headers := [("host", "app.localhost:1355"), ("x-forwarded-for", "10.0.0.7")]
    remoteAddress := some "127.0.0.1"
    url := "/a"
    method := "GET" }

/-- C6 witness: on a TLS-created proxy serving a plain HTTP/1.1 connection,
the X-Forwarded-For chain is extended and the absent proto/host/port headers
get the computed defaults — in particular `x-forwarded-proto` is `https`
although the connection was plain. -/
theorem forwarded_headers_injected_witness :
    headerGet (serverForwardedHeaders true (connKindOf 0x47) chainedReq)
        "x-forwarded-for" =
      some ("10.0.0.7" ++ ", " ++ jsOrS chainedReq.remoteAddress "127.0.0.1") ∧
    headerGet (serverForwardedHeaders true (connKindOf 0x47) chainedReq)
        "x-forwarded-proto" = some (if true then "https" else "http") ∧
    headerGet (serverForwardedHeaders true (connKindOf 0x47) chainedReq)
        "x-forwarded-host" = some (getRequestHost chainedReq) ∧
    headerGet (serverForwardedHeaders true (connKindOf 0x47) chainedReq)
        "x-forwarded-port" =
      some (jsOrS (secondColonChunk (getRequestHost chainedReq))
        (if true then "443" else "80")) :=
  ⟨(forwarded_headers_injected true (connKindOf 0x47) chainedReq).1 "10.0.0.7"
      rfl (by decide),
   (forwarded_headers_injected true (connKindOf 0x47) chainedReq).2.2.1 rfl,
   (forwarded_headers_injected true (connKindOf 0x47) chainedReq).2.2.2.2.1 rfl,
   (forwarded_headers_injected true (connKindOf 0x47) chainedReq).2.2.2.2.2.1 rfl⟩

/-- Backend response carrying a hop-by-hop header, for the C7 theorems. -/
def hopBackendResp : BackendResponse :=
  { status := 200
    headers := [("content-type", "text/plain"), ("transfer-encoding", "chunked")]
    body := "ok" }

/-- C7 counterexample: on a TLS-enabled proxy, a connection whose first byte
is 0x47 (the `G` of a plain-HTTP `GET`) is dispatched to the plain HTTP/1.1
inner server, yet the relay still strips `transfer-encoding` from the
backend response — the handlers capture the server-level TLS flag, so plain
HTTP/1.1 → HTTP/1.1 forwarding is NOT left untouched. -/
theorem tls_proxy_strips_for_plain_client :
    connKindOf 0x47 = .plainConn ∧
    headerGet hopBackendResp.headers "transfer-encoding" = some "chunked" ∧
    headerGet (serverRelayResponse true (connKindOf 0x47) hopBackendResp).headers
      "transfer-encoding" = none :=
  ⟨rfl, rfl, rfl⟩

/-- Every hop-by-hop header name differs from the identity header name. -/
theorem hop_ne_portless (h : String) (hh : h ∈ HOP_BY_HOP_HEADERS) :
    headerGet portlessBase h = none := by
  fin_cases hh <;> rfl

/-- C7 (amended): stripping of the hop-by-hop response headers `connection`,
`keep-alive`, `proxy-connection`, `transfer-encoding` and `upgrade` is
governed solely by whether the proxy was created with TLS: a TLS-enabled
proxy (which terminates HTTP/2) strips them from every relayed backend
response, for every connection kind — including plain HTTP/1.1 clients
admitted by the byte-peek wrapper — while a proxy created without TLS leaves
them untouched. -/
theorem hopByHop_strip_by_server_mode (conn : ConnKind) (b : BackendResponse)
    (h : String) (hh : h ∈ HOP_BY_HOP_HEADERS) :
    headerGet (serverRelayResponse true conn b).headers h = none ∧
    headerGet (serverRelayResponse false conn b).headers h =
      headerGet b.headers h := by
  constructor
  · have hexp : headerGet
        (b.headers.filter (fun e => ¬ HOP_BY_HOP_HEADERS.contains e.1)) h = none := by
      rw [headerGet_eq_none_iff]
      intro e he hek
      have hmem := List.mem_filter.1 he
      have hc : ¬ HOP_BY_HOP_HEADERS.contains e.1 = true := by simpa using hmem.2
      apply hc
      rw [hek]
      exact List.elem_eq_true_of_mem hh
    show headerGet (writeHeadMerge portlessBase
      (b.headers.filter (fun e => ¬ HOP_BY_HOP_HEADERS.contains e.1))) h = none
    rw [headerGet_writeHeadMerge_of_none _ _ _ hexp]
    exact hop_ne_portless h hh
  · show headerGet (writeHeadMerge portlessBase b.headers) h = headerGet b.headers h
    cases hb : headerGet b.headers h with
    | none =>
      rw [headerGet_writeHeadMerge_of_none _ _ _ hb]
      exact hop_ne_portless h hh
    | some v => exact headerGet_writeHeadMerge_of_some _ _ _ _ hb

/-- C7 witness: on a concrete backend response, the TLS-mode relay drops
`transfer-encoding` (for either connection kind) and the plain-mode relay
preserves it. -/
theorem hopByHop_strip_by_server_mode_witness :
    headerGet (serverRelayResponse true .plainConn hopBackendResp).headers
        "transfer-encoding" = none ∧
    headerGet (serverRelayResponse false .plainConn hopBackendResp).headers
        "transfer-encoding" = headerGet hopBackendResp.headers "transfer-encoding" :=
  hopByHop_strip_by_server_mode .plainConn hopBackendResp "transfer-encoding"
    (by decide)

/-! ## Helper lemmas: label splitting -/

theorem splitLabels_ne_nil : ∀ cs : List Char, splitLabels cs ≠ [] := by
  intro cs
  match cs with
  | [] => simp [splitLabels]
  | c :: rest =>
    simp only [splitLabels]
    split
    · simp
    · split <;> simp

theorem mem_splitLabels_charOk :
    ∀ (cs : List Char), ∀ l ∈ splitLabels cs, ∀ c ∈ l, c ∈ cs ∧ c ≠ '.' := by
  intro cs
  induction cs with
  | nil =>
    intro l hl c hc
    simp only [splitLabels, List.mem_singleton] at hl
    subst hl
    simp at hc
  | cons a rest ih =>
    intro l hl c hc
    by_cases ha : a = '.'
    · subst ha
      simp only [splitLabels, if_pos rfl] at hl
      rcases List.mem_cons.1 hl with rfl | hl'
      · simp at hc
      · have := ih l hl' c hc
        exact ⟨List.mem_cons_of_mem _ this.1, this.2⟩
    · simp only [splitLabels, if_neg ha] at hl
      cases hsp : splitLabels rest with
      | nil => exact absurd hsp (splitLabels_ne_nil rest)
      | cons l0 ls =>
        rw [hsp] at hl
        rcases List.mem_cons.1 hl with rfl | hl'
        · rcases List.mem_cons.1 hc with rfl | hc'
          · exact ⟨List.mem_cons_self _ _, ha⟩
          · have := ih l0 (by rw [hsp]; exact List.mem_cons_self _ _) c hc'
            exact ⟨List.mem_cons_of_mem _ this.1, this.2⟩
        · have := ih l (by rw [hsp]; exact List.mem_cons_of_mem _ hl') c hc
          exact ⟨List.mem_cons_of_mem _ this.1, this.2⟩

theorem splitLabels_head_ne_nil (a : Char) (rest : List Char) (ha : a ≠ '.')
    (l : List Char) (ls : List (List Char))
    (hsp : splitLabels (a :: rest) = l :: ls) : l ≠ [] := by
  simp only [splitLabels, if_neg ha] at hsp
  cases h : splitLabels rest with
  | nil => rw [h] at hsp; cases hsp; simp
  | cons l0 ls0 => rw [h] at hsp; cases hsp; simp

theorem splitLabels_tail_ne_nil :
    ∀ (cs : List Char), hasDotDot cs = false → cs.getLast? ≠ some '.' →
      ∀ l ∈ (splitLabels cs).tail, l ≠ [] := by
  intro cs
  induction cs with
  | nil => intro _ _ l hl; simp [splitLabels] at hl
  | cons a rest ih =>
    intro hdd hlast l hl
    by_cases ha : a = '.'
    · subst ha
      simp only [splitLabels, if_pos rfl, List.tail_cons] at hl
      cases rest with
      | nil => simp at hlast
      | cons b rest' =>
        have hb : b ≠ '.' := by
          intro e
          subst e
          simp [hasDotDot] at hdd
        have hdd' : hasDotDot (b :: rest') = false := by
          simp [hasDotDot] at hdd
          exact hdd.2
        have hlast' : (b :: rest').getLast? ≠ some '.' := by
          rwa [List.getLast?_cons_cons] at hlast
        cases hsp : splitLabels (b :: rest') with
        | nil => exact absurd hsp (splitLabels_ne_nil _)
        | cons l0 ls =>
          rw [hsp] at hl
          rcases List.mem_cons.1 hl with rfl | hl'
          · exact splitLabels_head_ne_nil b rest' hb l ls hsp
          · exact ih hdd' hlast' l (by rw [hsp]; exact hl')
    · simp only [splitLabels, if_neg ha] at hl
      cases hsp : splitLabels rest with
      | nil => rw [hsp] at hl; simp at hl
      | cons l0 ls =>
        rw [hsp] at hl
        simp only [List.tail_cons] at hl
        cases rest with
        | nil =>
          rw [show splitLabels [] = [[]] from rfl] at hsp
          cases hsp
          simp at hl
        | cons b rest' =>
          have hdd' : hasDotDot (b :: rest') = false := by
            simp [hasDotDot] at hdd
            exact hdd.2
          have hlast' : (b :: rest').getLast? ≠ some '.' := by
            rwa [List.getLast?_cons_cons] at hlast
          exact ih hdd' hlast' l (by rw [hsp]; exact hl)

theorem splitLabels_all_ne_nil (a : Char) (rest : List Char) (ha : a ≠ '.')
    (hlast : (a :: rest).getLast? ≠ some '.')
    (hdd : hasDotDot (a :: rest) = false) :
    ∀ l ∈ splitLabels (a :: rest), l ≠ [] := by
  intro l hl
  cases hsp : splitLabels (a :: rest) with
  | nil => exact absurd hsp (splitLabels_ne_nil _)
  | cons l0 ls =>
    rw [hsp] at hl
    rcases List.mem_cons.1 hl with rfl | hl'
    · exact splitLabels_head_ne_nil a rest ha l ls hsp
    · exact splitLabels_tail_ne_nil (a :: rest) hdd hlast l (by rw [hsp]; exact hl')

theorem isLowerAlnum_ne_dot (c : Char) (h : isLowerAlnum c = true) : c ≠ '.' := by
  intro e
  subst e
  exact absurd h (by decide)

/-! ## Claim theorems: hostname validator -/

/-- C8 counterexample: the validator accepts `a.-b` and returns
`a.-b.localhost`, whose interior label `-b` begins with a hyphen — the
returned hostname does not match the claimed grammar in which no label may
begin with a hyphen. -/
theorem parseHostname_accepts_inner_hyphen :
    parseHostname "a.-b" = .ok "a.-b.localhost" ∧
    specHostnameOk "a.-b.localhost" = false :=
  ⟨rfl, by decide⟩

/-- The name returned by a successful validation satisfies the amended
grammar: this is the content of the charset regex plus the no-`..` rule. -/
theorem amendedHostnameOk_of_checks (name : List Char)
    (hdd : hasDotDot name = false) (hnm : nameOk name = true) :
    amendedHostnameOk (String.mk (name ++ localhostSfx)) = true := by
  obtain ⟨c, rest, rfl⟩ : ∃ c rest, name = c :: rest := by
    cases hn : name with
    | nil => rw [hn] at hnm; exact absurd hnm (by decide)
    | cons c rest => exact ⟨c, rest, rfl⟩
  have hnm' : (isLowerAlnum c && (c :: rest).all nameCharOk &&
      lastIsAlnum (c :: rest)) = true := hnm
  rw [Bool.and_eq_true, Bool.and_eq_true] at hnm'
  obtain ⟨⟨hfirst, hall⟩, hlastal⟩ := hnm'
  have hlastne : (c :: rest).getLast? ≠ some '.' := by
    unfold lastIsAlnum at hlastal
    intro e
    rw [e] at hlastal
    exact isLowerAlnum_ne_dot _ hlastal rfl
  have hdata : (String.mk ((c :: rest) ++ localhostSfx)).toList =
      (c :: rest) ++ localhostSfx := rfl
  have htake : ((c :: rest) ++ localhostSfx).take
      (((c :: rest) ++ localhostSfx).length - 10) = c :: rest := by
    have hlen : ((c :: rest) ++ localhostSfx).length - 10 = (c :: rest).length := by
      simp [localhostSfx]
    rw [hlen]
    exact List.take_left (c :: rest) localhostSfx
  unfold amendedHostnameOk
  rw [hdata, htake]
  rw [Bool.and_eq_true, Bool.and_eq_true, Bool.and_eq_true]
  refine ⟨⟨⟨?_, ?_⟩, ?_⟩, ?_⟩
  · rw [List.isSuffixOf_iff_suffix]
    exact List.suffix_append (c :: rest) localhostSfx
  · exact hfirst
  · exact hlastal
  · rw [List.all_eq_true]
    intro l hl
    have hlnn : l ≠ [] :=
      splitLabels_all_ne_nil c rest (isLowerAlnum_ne_dot c hfirst) hlastne hdd l hl
    have hchars : ∀ x ∈ l, labelCharOk x = true := by
      intro x hx
      have hmem := mem_splitLabels_charOk (c :: rest) l hl x hx
      have hnc : nameCharOk x = true := by
        rw [List.all_eq_true] at hall
        exact hall x hmem.1
      unfold nameCharOk at hnc
      unfold labelCharOk
      rw [Bool.or_eq_true, Bool.or_eq_true] at hnc
      rw [Bool.or_eq_true]
      rcases hnc with h1 | h2
      · rcases h1 with ha | hd
        · exact Or.inl ha
        · exact absurd (of_decide_eq_true hd) hmem.2
      · exact Or.inr h2
    cases hlc : l with
    | nil => exact absurd hlc hlnn
    | cons y ys =>
      unfold amendedLabelOk
      rw [List.all_eq_true]
      intro x hx
      exact hchars x (by rw [hlc]; exact hx)

/-- A successful `parseHostname` always returns some `name ++ ".localhost"`
where the name passed the no-`..` check and the charset regex. -/
theorem parseHostname_ok_shape (input h : String)
    (hok : parseHostname input = .ok h) :
    ∃ name, h = String.mk (name ++ localhostSfx) ∧
      hasDotDot name = false ∧ nameOk name = true := by
  simp only [parseHostname] at hok
  generalize ((stripProtocolChars (jsTrimChars input.toList)).takeWhile
    (fun c => c ≠ '/')).map Char.toLower = hostname0 at hok
  by_cases h1 : hostname0 = [] ∨ hostname0 = localhostSfx
  · rw [if_pos h1] at hok; cases hok
  · rw [if_neg h1] at hok
    generalize (if localhostSfx.isSuffixOf hostname0 then
      hostname0.take (hostname0.length - 10) else hostname0) = name at hok
    by_cases h2 : hasDotDot name = true
    · rw [if_pos h2] at hok; cases hok
    · rw [if_neg h2] at hok
      by_cases h3 : nameOk name = false
      · rw [if_pos h3] at hok; cases hok
      · rw [if_neg h3] at hok
        cases hok
        refine ⟨name, rfl, ?_, ?_⟩
        · revert h2; cases hasDotDot name <;> simp
        · revert h3; cases nameOk name <;> simp

/-- C8 (amended): for every input the validator accepts, the returned
hostname is `name ++ ".localhost"` where `name` splits on dots into
non-empty labels over `[a-z0-9-]` and the first and last characters of
`name` are alphanumeric — so the first label cannot begin with a hyphen and
the last label cannot end with one, but an interior label may begin or end
with a hyphen (and no label contains a dot or is empty). -/
theorem parseHostname_grammar (input h : String)
    (hok : parseHostname input = .ok h) : amendedHostnameOk h = true := by
  obtain ⟨name, rfl, hdd, hnm⟩ := parseHostname_ok_shape input h hok
  exact amendedHostnameOk_of_checks name hdd hnm

/-- C8 witness: the amended grammar holds of the accepted input `a.-b`. -/
theorem parseHostname_grammar_witness :
    amendedHostnameOk "a.-b.localhost" = true :=
  parseHostname_grammar "a.-b" "a.-b.localhost" rfl

/-! ## Claim theorems: certificate validity -/

/-- A stored certificate that parses, carries a SHA-1 signature, and expires
a year (31536000000 ms) after time 0. -/
def sha1Cert : CertFile :=
  { parses := true, notAfterMs := 31536000000, sigSha1 := true }

/-- C9: `isCertValid` treats this SHA-1-signed, far-from-expiry certificate
as VALID at time 0 — the check reads only the parse result and the 7-day
expiry buffer against `notAfter` and never inspects the signature algorithm,
so a SHA-1 signature does not force regeneration, contrary to the claim, the
spec (§4.4) and the repository changelog for 0.4.2 (SHA-1 certificates are
to be detected and regenerated).  The rest of the claim does hold of the
code, shown here at the same state: with the CA missing (hence regenerated),
the default server leaf is regenerated even though the leaf itself passes
`isCertValid`. -/
theorem isCertValid_ignores_sha1 :
    isCertValid 0 (some sha1Cert) = true ∧
    sha1Cert.sigSha1 = true ∧
    (0 : Int) + EXPIRY_BUFFER_MS < sha1Cert.notAfterMs ∧
    isCertValid 0 (some { sha1Cert with sigSha1 := false }) =
      isCertValid 0 (some sha1Cert) ∧
    caRegenerated 0
      { caCert := none, caKey := false, serverCert := some sha1Cert } = true ∧
    serverRegenerated 0
      { caCert := none, caKey := false, serverCert := some sha1Cert } = true :=
  ⟨rfl, rfl, by decide, rfl, rfl, rfl⟩

end Portless
